import Mathlib

/-!
Shallow embedding of `ooptask/oop.py`: the `Seq` record class (header and
sequence normalization, FASTA rendering, alphabet classification) and the
`FastaReader` class (`isfasta`, the `records` line-oriented state machine).

Python strings are modelled as Lean `String`s (charwise; `str.upper` is
modelled by the basic-latin `Char.toUpper`, which agrees with Python on
ASCII input). A text source is modelled by `OpenResult`: either the decoded
file content, or one of the two open-failure situations the program
distinguishes (`FileNotFoundError`, which `isfasta` catches, and any other
open error, which nothing catches). `for line in f` over a text file is
modelled by splitting the content at newline characters; the trailing empty
piece this produces for a newline-terminated file is stripped to the empty
line and skipped by the state machine, exactly as in the Python loop.
-/

namespace OopTask

/-- The set of characters Python's `str.strip()` removes
(codepoints with the Unicode whitespace property). -/
def pyIsSpace (c : Char) : Bool :=
  c.toNat ∈ [9, 10, 11, 12, 13, 28, 29, 30, 31, 32, 133, 160, 5760,
    8192, 8193, 8194, 8195, 8196, 8197, 8198, 8199, 8200, 8201, 8202,
    8232, 8233, 8239, 8287, 12288]

/-- Python `str.strip()`: remove leading and trailing whitespace. -/
def pyStrip (s : String) : String :=
  String.mk (((s.data.dropWhile pyIsSpace).reverse.dropWhile pyIsSpace).reverse)

/-- Python `str.upper()` (basic-latin model): upper-case every character. -/
def pyUpper (s : String) : String :=
  String.mk (s.data.map Char.toUpper)

/-- Python `str.lower()` (basic-latin model): lower-case every character. -/
def pyLower (s : String) : String :=
  String.mk (s.data.map Char.toLower)

/-- Python `line.startswith(p)` for a one-character prefix `p`:
true iff the string is nonempty and its first character is `p`. -/
def pyStartsWith1 (p : Char) (s : String) : Bool :=
  match s.data with
  | [] => false
  | c :: _ => c == p

/-- Python `line[1:]`: drop the first character. -/
def pyDropFirst (s : String) : String :=
  String.mk s.data.tail

/-- `class Seq`: a header plus a sequence, as stored after `__init__`. -/
structure Seq where
  header : String
  sequence : String
deriving DecidableEq, Repr

/-- `Seq.__init__(self, header, sequence)`:
`self.header = header.strip()`; `self.sequence = sequence.strip().upper()`. -/
def Seq.make (header sequence : String) : Seq :=
  { header := pyStrip header, sequence := pyUpper (pyStrip sequence) }

/-- `Seq.__str__`: `f">{self.header}\n{self.sequence}"`. -/
def Seq.render (s : Seq) : String :=
  ">" ++ s.header ++ "\n" ++ s.sequence

/-- `Seq.__len__`: `len(self.sequence)`. -/
def Seq.length (s : Seq) : Nat :=
  s.sequence.data.length

/-- `nucleotides = set("ACGTU")` (membership in the set is membership
in this list of characters). -/
def nucleotides : List Char := "ACGTU".data

/-- `proteins = set("ACDEFGHIKLMNPQRSTVWY")`. -/
def proteins : List Char := "ACDEFGHIKLMNPQRSTVWY".data

/-- `Seq.alphabet(self)`: subset tests on the distinct characters of
`self.sequence` (`set(self.sequence) <= nucleotides` holds iff every
character of the string is in the set), then counts with repetition. -/
def Seq.alphabet (s : Seq) : String :=
  if s.sequence.data.all (fun c => nucleotides.contains c) then "nucleotide"
  else if s.sequence.data.all (fun c => proteins.contains c) then "protein"
  else if s.sequence.data.countP (fun c => nucleotides.contains c) >
          s.sequence.data.countP (fun c => proteins.contains c) then
    "likely nucleotide"
  else if s.sequence.data.countP (fun c => proteins.contains c) >
          s.sequence.data.countP (fun c => nucleotides.contains c) then
    "likely protein"
  else "unknown"

/-- Result of `open(self.filepath, "r")`: the decoded content on success,
otherwise the failure kind (`FileNotFoundError` is the one exception class
the program ever catches; every other open error is left to propagate). -/
inductive OpenResult where
  | ok (content : String)
  | fileNotFound
  | otherIOError
deriving DecidableEq, Repr

/-- `FastaReader.isfasta(self)`: read the first character and compare with
`'>'` (`f.read(1)` returns `""` on an empty file, which is not `">"`);
`except FileNotFoundError: return False`; any other open error escapes. -/
def FastaReader.isfasta : OpenResult → Except Unit Bool
  | .ok content => .ok (pyStartsWith1 '>' content)
  | .fileNotFound => .ok false
  | .otherIOError => .error ()

/-- Split a decoded text at newline characters: the model of iterating
`for line in f` (each Python line carries a trailing `'\n'` that
`line.strip()` removes anyway, so only the split positions matter).
`acc` holds the characters of the current piece in reverse. -/
def splitLinesAux : List Char → List Char → List String
  | acc, [] => [String.mk acc.reverse]
  | acc, c :: rest =>
    if c = '\n' then String.mk acc.reverse :: splitLinesAux [] rest
    else splitLinesAux (c :: acc) rest

/-- The physical lines of a file content. -/
def splitLines (s : String) : List String :=
  splitLinesAux [] s.data

/-- The loop body of `FastaReader.records`, processing the remaining lines:
`header` is the pending header (`None` initially), `seqlines` the stripped
sequence lines collected so far; at end of input the pending record, if
any, is emitted. -/
def FastaReader.recordsAux : Option String → List String → List String → List Seq
  | header, seqlines, [] =>
    match header with
    | none => []
    | some h => [Seq.make h (String.join seqlines)]
  | header, seqlines, line :: rest =>
    let l := pyStrip line
    if l.data.isEmpty then
      FastaReader.recordsAux header seqlines rest
    else if pyStartsWith1 '>' l then
      (match header with
       | none => []
       | some h => [Seq.make h (String.join seqlines)]) ++
      FastaReader.recordsAux (some (pyDropFirst l)) [] rest
    else
      FastaReader.recordsAux header (seqlines ++ [l]) rest

/-- `FastaReader.records(self)`: open the source (an open failure of any
kind escapes to the caller) and run the state machine over its lines. -/
def FastaReader.records : OpenResult → Except Unit (List Seq)
  | .ok content => .ok (FastaReader.recordsAux none [] (splitLines content))
  | .fileNotFound => .error ()
  | .otherIOError => .error ()


/-- `NUCLEOTIDE_SET` as the specification words it (§4.1 step 1). -/
def NUCLEOTIDE_SET : Finset Char := {'A', 'C', 'G', 'T', 'U'}

/-- `PROTEIN_SET` as the specification words it (§4.1 step 2): the 20
standard single-letter amino-acid codes. -/
def PROTEIN_SET : Finset Char :=
  {'A', 'C', 'D', 'E', 'F', 'G', 'H', 'I', 'K', 'L', 'M', 'N', 'P', 'Q',
   'R', 'S', 'T', 'V', 'W', 'Y'}

/-- The alphabet-classification algorithm exactly as the specification
words it (§4.1, steps 3–7): subset tests on the set of distinct characters
of the sequence, then counts with repetition, where a character belonging
to both reference sets contributes to both counts. -/
def specAlphabet (sequence : String) : String :=
  let distinctChars : Finset Char := sequence.data.toFinset
  if distinctChars ⊆ NUCLEOTIDE_SET then "nucleotide"
  else if distinctChars ⊆ PROTEIN_SET then "protein"
  else
    let nucCount := (sequence.data.filter (fun c => decide (c ∈ NUCLEOTIDE_SET))).length
    let protCount := (sequence.data.filter (fun c => decide (c ∈ PROTEIN_SET))).length
    if nucCount > protCount then "likely nucleotide"
    else if protCount > nucCount then "likely protein"
    else "unknown"

lemma nucleotides_eq : nucleotides = ['A', 'C', 'G', 'T', 'U'] := rfl

lemma proteins_eq : proteins =
    ['A', 'C', 'D', 'E', 'F', 'G', 'H', 'I', 'K', 'L', 'M', 'N', 'P', 'Q',
     'R', 'S', 'T', 'V', 'W', 'Y'] := rfl

lemma contains_nucleotides (c : Char) :
    nucleotides.contains c = decide (c ∈ NUCLEOTIDE_SET) := by
  rw [Bool.eq_iff_iff]
  simp [nucleotides_eq, NUCLEOTIDE_SET]

lemma contains_proteins (c : Char) :
    proteins.contains c = decide (c ∈ PROTEIN_SET) := by
  rw [Bool.eq_iff_iff]
  simp [proteins_eq, PROTEIN_SET]


lemma mem_nucleotides_iff (c : Char) : c ∈ nucleotides ↔ c ∈ NUCLEOTIDE_SET := by
  simp [nucleotides_eq, NUCLEOTIDE_SET]

lemma mem_proteins_iff (c : Char) : c ∈ proteins ↔ c ∈ PROTEIN_SET := by
  simp [proteins_eq, PROTEIN_SET]

lemma all_contains_nucleotides_iff (l : List Char) :
    ((l.all fun c => nucleotides.contains c) = true) ↔
      l.toFinset ⊆ NUCLEOTIDE_SET := by
  simp [List.all_eq_true, contains_nucleotides, Finset.subset_iff,
    mem_nucleotides_iff]

lemma all_contains_proteins_iff (l : List Char) :
    ((l.all fun c => proteins.contains c) = true) ↔
      l.toFinset ⊆ PROTEIN_SET := by
  simp [List.all_eq_true, contains_proteins, Finset.subset_iff,
    mem_proteins_iff]

lemma countP_contains_nucleotides (l : List Char) :
    (l.countP fun c => nucleotides.contains c) =
      (l.filter fun c => decide (c ∈ NUCLEOTIDE_SET)).length := by
  rw [List.countP_eq_length_filter]
  congr 1
  exact List.filter_congr fun c _ => contains_nucleotides c

lemma countP_contains_proteins (l : List Char) :
    (l.countP fun c => proteins.contains c) =
      (l.filter fun c => decide (c ∈ PROTEIN_SET)).length := by
  rw [List.countP_eq_length_filter]
  congr 1
  exact List.filter_congr fun c _ => contains_proteins c

/-- C1: `alphabet()` follows the specified algorithm exactly — subset test
of the distinct characters against the nucleotide set, then against the
protein set, then the double-counting comparison with ties (including
zero–zero) giving "unknown"; in particular the sequence "ACGTX" classifies
as "unknown" (nucCount = protCount = 4). -/
theorem alphabet_follows_spec :
    (∀ r : Seq, r.alphabet = specAlphabet r.sequence) ∧
    (Seq.make "x" "ACGTX").alphabet = "unknown" := by
  constructor
  · intro r
    unfold Seq.alphabet specAlphabet
    simp only [all_contains_nucleotides_iff, all_contains_proteins_iff,
      countP_contains_nucleotides, countP_contains_proteins]
  · decide

/-- C5: a record whose sequence argument strips to the empty string (empty
or whitespace-only) classifies as "nucleotide" — the empty distinct set
passes the nucleotide subset test, which is checked first. -/
theorem empty_sequence_is_nucleotide (h s : String) (hs : pyStrip s = "") :
    (Seq.make h s).alphabet = "nucleotide" := by
  simp [Seq.make, hs, Seq.alphabet, pyUpper]

theorem empty_sequence_is_nucleotide_witness :
    pyStrip "  " = "" ∧ (Seq.make "x" "  ").alphabet = "nucleotide" :=
  ⟨by decide, empty_sequence_is_nucleotide "x" "  " (by decide)⟩

/-- C7: the rendering of `Seq.make h s` is exactly `">"`, the stripped
header, one newline, and the stripped upper-cased sequence, on one line. -/
theorem render_eq (h s : String) :
    (Seq.make h s).render = ">" ++ pyStrip h ++ "\n" ++ pyUpper (pyStrip s) :=
  rfl


/-- C2: the line-oriented state machine of `records()` — a line that strips
to empty is skipped and does not terminate the record in progress; at end
of stream a pending header emits a final record from the concatenation of
the collected lines (joined with no separator); and on the content
">s1\nACGT\n\nACGT\n>s2\nMKV\n" exactly the two records ("s1", "ACGTACGT")
and ("s2", "MKV") are produced, in that order. -/
theorem records_state_machine :
    (∀ hd sls line rest, pyStrip line = "" →
        FastaReader.recordsAux hd sls (line :: rest) =
          FastaReader.recordsAux hd sls rest) ∧
    (∀ h sls, FastaReader.recordsAux (some h) sls [] =
        [Seq.make h (String.join sls)]) ∧
    FastaReader.records (.ok ">s1\nACGT\n\nACGT\n>s2\nMKV\n") =
      .ok [⟨"s1", "ACGTACGT"⟩, ⟨"s2", "MKV"⟩] := by
  refine ⟨fun hd sls line rest hl => ?_, fun h sls => rfl, rfl⟩
  simp [FastaReader.recordsAux, hl]

theorem records_state_machine_witness :
    pyStrip " " = "" ∧
    FastaReader.recordsAux none [] [" "] = FastaReader.recordsAux none [] [] :=
  ⟨by decide, records_state_machine.1 none [] " " [] (by decide)⟩

/-- C3 counterexample: the claim says `isFasta()` never raises when the
source fails to open for any reason, but the code catches only the
file-not-found condition — any other open failure propagates as an error
instead of yielding `false`. -/
theorem isfasta_other_open_error_raises :
    FastaReader.isfasta .otherIOError = .error () ∧
    FastaReader.isfasta .otherIOError ≠ .ok false :=
  ⟨rfl, fun h => Except.noConfusion h⟩

/-- C3 (amended): `isFasta()` returns true iff the first character of the
content is '>' (false on an empty source); a file-not-found open failure
is converted to `false`; an open failure of any other kind is not caught
and surfaces as an error. -/
theorem isfasta_amended :
    (∀ content, FastaReader.isfasta (.ok content) =
        .ok (pyStartsWith1 '>' content)) ∧
    FastaReader.isfasta .fileNotFound = .ok false ∧
    FastaReader.isfasta (.ok "") = .ok false ∧
    FastaReader.isfasta .otherIOError = .error () :=
  ⟨fun _ => rfl, rfl, rfl, rfl⟩

/-- C4: `records()` fails exactly when the source does not open; a source
that opens — whatever its content — always yields a record list. -/
theorem records_error_iff_open_failure :
    ∀ src : OpenResult,
      (∃ e, FastaReader.records src = .error e) ↔ ∀ content, src ≠ .ok content := by
  intro src
  cases src with
  | ok content =>
    constructor
    · rintro ⟨e, h⟩
      exact Except.noConfusion h
    · intro h
      exact absurd rfl (h content)
  | fileNotFound =>
    exact ⟨fun _ c h => OpenResult.noConfusion h, fun _ => ⟨(), rfl⟩⟩
  | otherIOError =>
    exact ⟨fun _ c h => OpenResult.noConfusion h, fun _ => ⟨(), rfl⟩⟩


lemma char_toNat_ofNat (n : Nat) (h : n.isValidChar) : (Char.ofNat n).toNat = n := by
  simp [Char.ofNat, h, Char.ofNatAux, Char.toNat, UInt32.toNat, BitVec.toNat_ofNatLt]

lemma toUpper_toLower (c : Char) : Char.toUpper (Char.toLower c) = Char.toUpper c := by
  unfold Char.toLower Char.toUpper
  dsimp only
  split
  · rename_i hr
    have h2 : (Char.ofNat (c.toNat + 32)).toNat = c.toNat + 32 :=
      char_toNat_ofNat _ (Or.inl (by omega))
    rw [h2, if_pos (by omega), if_neg (by omega)]
    have h3 : c.toNat + 32 - 32 = c.toNat := by omega
    rw [h3, Char.ofNat_toNat]
  · rfl

lemma toUpper_toUpper (c : Char) : Char.toUpper (Char.toUpper c) = Char.toUpper c := by
  unfold Char.toUpper
  dsimp only
  split
  · rename_i hr
    have h2 : (Char.ofNat (c.toNat - 32)).toNat = c.toNat - 32 :=
      char_toNat_ofNat _ (Or.inl (by omega))
    rw [h2, if_neg (by omega)]
  · rfl

lemma pyIsSpace_toLower (c : Char) : pyIsSpace (Char.toLower c) = pyIsSpace c := by
  rw [Bool.eq_iff_iff]
  unfold Char.toLower
  dsimp only
  split
  · rename_i hr
    have h2 : (Char.ofNat (c.toNat + 32)).toNat = c.toNat + 32 :=
      char_toNat_ofNat _ (Or.inl (by omega))
    simp only [pyIsSpace, h2, List.mem_cons, List.not_mem_nil, or_false,
      decide_eq_true_eq]
    omega
  · rfl

lemma pyIsSpace_toUpper (c : Char) : pyIsSpace (Char.toUpper c) = pyIsSpace c := by
  rw [Bool.eq_iff_iff]
  unfold Char.toUpper
  dsimp only
  split
  · rename_i hr
    have h2 : (Char.ofNat (c.toNat - 32)).toNat = c.toNat - 32 :=
      char_toNat_ofNat _ (Or.inl (by omega))
    simp only [pyIsSpace, h2, List.mem_cons, List.not_mem_nil, or_false,
      decide_eq_true_eq]
    omega
  · rfl

lemma pyStrip_map_of_space_comm (f : Char → Char)
    (hf : ∀ c, pyIsSpace (f c) = pyIsSpace c) (s : String) :
    pyStrip (String.mk (s.data.map f)) = String.mk ((pyStrip s).data.map f) := by
  unfold pyStrip
  have hp : (pyIsSpace ∘ f) = pyIsSpace := funext hf
  simp [← List.map_reverse, List.dropWhile_map, hp]

lemma pyUpper_map_toLower (t : String) :
    pyUpper (String.mk (t.data.map Char.toLower)) = pyUpper t := by
  unfold pyUpper
  simp [List.map_map, Function.comp_def, toUpper_toLower]

lemma pyUpper_map_toUpper (t : String) :
    pyUpper (String.mk (t.data.map Char.toUpper)) = pyUpper t := by
  unfold pyUpper
  simp [List.map_map, Function.comp_def, toUpper_toUpper]

lemma pyStrip_pyLower (s : String) : pyStrip (pyLower s) = pyLower (pyStrip s) :=
  pyStrip_map_of_space_comm Char.toLower pyIsSpace_toLower s

lemma pyStrip_pyUpper (s : String) : pyStrip (pyUpper s) = pyUpper (pyStrip s) :=
  pyStrip_map_of_space_comm Char.toUpper pyIsSpace_toUpper s

lemma pyUpper_pyLower (t : String) : pyUpper (pyLower t) = pyUpper t :=
  pyUpper_map_toLower t

lemma pyUpper_pyUpper (t : String) : pyUpper (pyUpper t) = pyUpper t :=
  pyUpper_map_toUpper t

lemma all_perm (p : Char → Bool) {l₁ l₂ : List Char} (h : l₁.Perm l₂) :
    l₁.all p = l₂.all p := by
  rw [Bool.eq_iff_iff]
  simp only [List.all_eq_true]
  exact ⟨fun ha c hc => ha c (h.mem_iff.mpr hc), fun ha c hc => ha c (h.mem_iff.mp hc)⟩

/-- C9: `alphabet()` is a pure function of the record; it is invariant
under permutation of the stored sequence's characters; and it is invariant
under altering the letter case of the sequence passed to the constructor
(lower-casing or upper-casing the input changes nothing, because the
constructor upper-cases before classification). -/
theorem alphabet_pure_perm_case_invariant :
    (∀ r : Seq, r.alphabet = r.alphabet) ∧
    (∀ r₁ r₂ : Seq, r₁.sequence.data.Perm r₂.sequence.data →
        r₁.alphabet = r₂.alphabet) ∧
    (∀ h s, (Seq.make h (pyLower s)).alphabet = (Seq.make h s).alphabet ∧
        (Seq.make h (pyUpper s)).alphabet = (Seq.make h s).alphabet) := by
  refine ⟨fun r => rfl, fun r₁ r₂ hp => ?_, fun h s => ?_⟩
  · unfold Seq.alphabet
    rw [all_perm _ hp, all_perm _ hp, hp.countP_eq, hp.countP_eq]
  · have hl : Seq.make h (pyLower s) = Seq.make h s := by
      unfold Seq.make
      rw [pyStrip_pyLower, pyUpper_pyLower]
    have hu : Seq.make h (pyUpper s) = Seq.make h s := by
      unfold Seq.make
      rw [pyStrip_pyUpper, pyUpper_pyUpper]
    exact ⟨by rw [hl], by rw [hu]⟩

theorem alphabet_pure_perm_case_invariant_witness :
    (⟨"x", "ACGT"⟩ : Seq).alphabet = (⟨"x", "TGCA"⟩ : Seq).alphabet :=
  alphabet_pure_perm_case_invariant.2.1 ⟨"x", "ACGT"⟩ ⟨"x", "TGCA"⟩ (by decide)


lemma recordsAux_none_no_header (lines : List String) :
    ∀ sls, (∀ l ∈ lines, pyStartsWith1 '>' (pyStrip l) = false) →
      FastaReader.recordsAux none sls lines = [] := by
  induction lines with
  | nil => intro sls _; rfl
  | cons line rest ih =>
    intro sls h
    have hline := h line (List.mem_cons_self _ _)
    have hrest := fun l hl => h l (List.mem_cons_of_mem _ hl)
    by_cases he : (pyStrip line).data.isEmpty
    · simpa [FastaReader.recordsAux, he] using ih sls hrest
    · simpa [FastaReader.recordsAux, he, hline] using
        ih (sls ++ [pyStrip line]) hrest

/-- C8: a source that opens successfully and has no line whose stripped
form starts with '>' — in particular the empty, zero-byte source — yields
zero records, with no error. -/
theorem records_no_header_yields_nil (content : String)
    (h : ∀ l ∈ splitLines content, pyStartsWith1 '>' (pyStrip l) = false) :
    FastaReader.records (.ok content) = .ok [] := by
  simpa [FastaReader.records] using recordsAux_none_no_header _ [] h

theorem records_no_header_yields_nil_witness :
    (∀ l ∈ splitLines "", pyStartsWith1 '>' (pyStrip l) = false) ∧
    FastaReader.records (.ok "") = .ok [] :=
  ⟨by decide, records_no_header_yields_nil "" (by decide)⟩

lemma recordsAux_none_seqlines_irrelevant (lines : List String) :
    ∀ sls, FastaReader.recordsAux none sls lines =
      FastaReader.recordsAux none [] lines := by
  induction lines with
  | nil => intro sls; rfl
  | cons line rest ih =>
    intro sls
    by_cases he : (pyStrip line).data.isEmpty
    · simp only [FastaReader.recordsAux, he, if_pos]
      exact ih sls
    · by_cases hs : pyStartsWith1 '>' (pyStrip line)
      · simp [FastaReader.recordsAux, he, hs]
      · simp only [FastaReader.recordsAux, he, hs]
        simp only [if_neg, Bool.false_eq_true, not_false_eq_true]
        rw [ih (sls ++ [pyStrip line]), ih ([] ++ [pyStrip line])]

/-- C10 (implicit): sequence-data lines before the first header line are
silently discarded — the lines collected with no pending header never
influence the output, so `records()` depends only on the content from the
first '>' line onward, and produces nothing if no header ever appears. -/
theorem records_discards_pre_header_lines :
    (∀ sls lines, FastaReader.recordsAux none sls lines =
        FastaReader.recordsAux none [] lines) ∧
    (∀ pre post, (∀ l ∈ pre, pyStartsWith1 '>' (pyStrip l) = false) →
        FastaReader.recordsAux none [] (pre ++ post) =
          FastaReader.recordsAux none [] post) := by
  constructor
  · intro sls lines
    exact recordsAux_none_seqlines_irrelevant lines sls
  · intro pre
    induction pre with
    | nil => intro post _; rfl
    | cons line rest ih =>
      intro post h
      have hline := h line (List.mem_cons_self _ _)
      have hrest := fun l hl => h l (List.mem_cons_of_mem _ hl)
      by_cases he : (pyStrip line).data.isEmpty
      · simpa [FastaReader.recordsAux, he] using ih post hrest
      · simp only [List.cons_append, FastaReader.recordsAux, he, hline]
        simp only [if_neg, Bool.false_eq_true, not_false_eq_true]
        exact (recordsAux_none_seqlines_irrelevant _ _).trans (ih post hrest)

theorem records_discards_pre_header_lines_witness :
    FastaReader.recordsAux none [] (["AC"] ++ [">h"]) =
      FastaReader.recordsAux none [] [">h"] :=
  records_discards_pre_header_lines.2 ["AC"] [">h"] (by decide)


lemma toUpper_eq_newline {c : Char} (h : Char.toUpper c = '\n') : c = '\n' := by
  unfold Char.toUpper at h
  dsimp only at h
  split at h
  · rename_i hr
    have h2 : (Char.ofNat (c.toNat - 32)).toNat = c.toNat - 32 :=
      char_toNat_ofNat _ (Or.inl (by omega))
    rw [h] at h2
    have h3 : ('\n').toNat = 10 := by decide
    omega
  · exact h

lemma splitLinesAux_no_newline (cs : List Char) :
    ∀ acc, '\n' ∉ acc → ∀ l ∈ splitLinesAux acc cs, '\n' ∉ l.data := by
  induction cs with
  | nil =>
    intro acc hacc l hl
    simp only [splitLinesAux, List.mem_singleton] at hl
    subst hl
    simpa using hacc
  | cons c rest ih =>
    intro acc hacc l hl
    by_cases hc : c = '\n'
    · simp only [splitLinesAux, hc, if_pos, List.mem_cons] at hl
      rcases hl with hl | hl
      · subst hl
        simpa using hacc
      · exact ih [] (List.not_mem_nil _) l hl
    · simp only [splitLinesAux, hc, if_neg, not_false_eq_true] at hl
      refine ih (c :: acc) ?_ l hl
      simp only [List.mem_cons, not_or]
      exact ⟨fun hcc => hc hcc.symm, hacc⟩

lemma splitLines_no_newline (content : String) :
    ∀ l ∈ splitLines content, '\n' ∉ l.data :=
  splitLinesAux_no_newline content.data [] (List.not_mem_nil _)

lemma mem_pyStrip {c : Char} {s : String} (h : c ∈ (pyStrip s).data) :
    c ∈ s.data := by
  unfold pyStrip at h
  simp only [List.mem_reverse] at h
  have h1 := List.dropWhile_subset (l := (s.data.dropWhile pyIsSpace).reverse) pyIsSpace h
  simp only [List.mem_reverse] at h1
  exact List.dropWhile_subset pyIsSpace h1

lemma data_join (ls : List String) :
    (String.join ls).data = (ls.map String.data).flatten := by
  have haux : ∀ (l : List String) (init : String),
      (l.foldl (fun a b => a ++ b) init).data = init.data ++ (l.map String.data).flatten := by
    intro l
    induction l with
    | nil => intro init; simp
    | cons x xs ih =>
      intro init
      simp only [List.foldl_cons, ih, String.data_append, List.map_cons,
        List.flatten_cons, List.append_assoc]
  simp [String.join, haux ls ""]

lemma make_join_no_newline (h : String) (sls : List String)
    (hs : ∀ l ∈ sls, '\n' ∉ l.data) :
    '\n' ∉ (Seq.make h (String.join sls)).sequence.data := by
  intro hmem
  simp only [Seq.make, pyUpper, List.mem_map] at hmem
  obtain ⟨c0, hc0, hup⟩ := hmem
  have hc0n : c0 = '\n' := toUpper_eq_newline hup
  subst hc0n
  have h1 : ('\n' : Char) ∈ (String.join sls).data := mem_pyStrip hc0
  rw [data_join] at h1
  obtain ⟨d, hd, hmem2⟩ := List.mem_flatten.mp h1
  obtain ⟨l, hl, rfl⟩ := List.mem_map.mp hd
  exact hs l hl hmem2

lemma recordsAux_no_newline (lines : List String)
    (hlines : ∀ l ∈ lines, '\n' ∉ l.data) :
    ∀ hd sls, (∀ l ∈ sls, '\n' ∉ l.data) →
      ∀ r ∈ FastaReader.recordsAux hd sls lines, '\n' ∉ r.sequence.data := by
  induction lines with
  | nil =>
    intro hd sls hsls r hr
    cases hd with
    | none => simp [FastaReader.recordsAux] at hr
    | some h =>
      simp only [FastaReader.recordsAux, List.mem_singleton] at hr
      subst hr
      exact make_join_no_newline h sls hsls
  | cons line rest ih =>
    intro hd sls hsls r hr
    have hline := hlines line (List.mem_cons_self _ _)
    have hrest := fun l hl => hlines l (List.mem_cons_of_mem _ hl)
    by_cases he : (pyStrip line).data.isEmpty
    · simp only [FastaReader.recordsAux, he, if_pos] at hr
      exact ih hrest hd sls hsls r hr
    · by_cases hsw : pyStartsWith1 '>' (pyStrip line)
      · cases hd with
        | none =>
          simp [FastaReader.recordsAux, he, hsw] at hr
          exact ih hrest _ [] (List.forall_mem_nil _) r hr
        | some h =>
          simp [FastaReader.recordsAux, he, hsw] at hr
          rcases hr with h1 | h1
          · subst h1
            exact make_join_no_newline h sls hsls
          · exact ih hrest _ [] (List.forall_mem_nil _) r h1
      · simp only [FastaReader.recordsAux, he, hsw] at hr
        simp only [if_neg, Bool.false_eq_true, not_false_eq_true] at hr
        refine ih hrest hd (sls ++ [pyStrip line]) ?_ r hr
        intro l hl
        rcases List.mem_append.mp hl with h1 | h1
        · exact hsls l h1
        · rw [List.mem_singleton.mp h1]
          intro hm
          exact hline (mem_pyStrip hm)

/-- C6 counterexample: the claim covers records constructed directly by a
caller from any strings, but construction only strips surrounding
whitespace — a sequence argument with an interior newline keeps it, so the
stored sequence of `Seq("h", "A\nB")` contains a newline. -/
theorem make_sequence_keeps_interior_newline :
    '\n' ∈ (Seq.make "h" "A\nB").sequence.data := by decide

/-- C6 (amended): every record produced by `records()` from a source that
opened has a newline-free stored sequence (it is assembled from stripped
single lines); for a record constructed directly the guarantee holds only
when the given sequence string has no interior newline, since construction
strips only leading and trailing whitespace. -/
theorem records_sequence_no_newline (content : String) (rs : List Seq)
    (h : FastaReader.records (.ok content) = .ok rs) :
    ∀ r ∈ rs, '\n' ∉ r.sequence.data := by
  have hrs : rs = FastaReader.recordsAux none [] (splitLines content) := by
    simpa [FastaReader.records] using h.symm
  subst hrs
  exact recordsAux_no_newline (splitLines content)
    (splitLines_no_newline content) none [] (List.forall_mem_nil _)

theorem records_sequence_no_newline_witness :
    '\n' ∉ (⟨"a", "ACGT"⟩ : Seq).sequence.data :=
  records_sequence_no_newline ">a\nAC\nGT" [⟨"a", "ACGT"⟩] rfl
    ⟨"a", "ACGT"⟩ (List.mem_singleton.mpr rfl)

end OopTask
